import Mathlib

/-!
Verification of madonctl's pagination and streaming core.

A shallow embedding of the data-retrieval core of the `madonctl` repository
(Go): the link-header parser (`parseLink` in
`vendor/github.com/McKael/madon/v3/api.go`), the cursor serialization logic of
`apiCall` (same file), the paged fetch loop (`getMultipleAccounts` in
`vendor/github.com/McKael/madon/v3/account.go`), the streaming read loop
(`readStream` in madon's `streaming.go`), and the stream command's argument
validation and fan-in loop (`streamRunE` in `cmd/stream.go`).

Network and JSON I/O are external to the embedded core: the Resource Client is
modelled as a trace of per-request results consumed in order, and JSON
decodability of stream payloads is modelled as an abstract flag on the frame.
Pure parsing logic (link-header grammar, URL query extraction, `strconv.Atoi`)
is embedded directly from the source.
-/

/-! Data model: `LimitParams` and `apiLinks` (madon v3).

Go (madon v3 `madon.go`, shape fixed by every use site in `api.go` and
`account.go`):
`type LimitParams struct { Limit int; All bool; SinceID, MaxID ActivityID }`
where `ActivityID = string`.  Go zero values are `0`, `false`, `""`. -/

abbrev ActivityID := String

structure LimitParams where
  limit : Int := 0
  all : Bool := false
  sinceID : ActivityID := ""
  maxID : ActivityID := ""
deriving Repr, DecidableEq

/-- Go: `type apiLinks struct { next, prev *LimitParams }` (`api.go`).
A `nil` pointer is `none`. -/
structure apiLinks where
  next : Option LimitParams := none
  prev : Option LimitParams := none
deriving Repr, DecidableEq

/-- Errors returned by the embedded Go functions.  `apiErr` stands for any
error produced by a whole `apiCall` (transport failure, server error reply,
JSON decode failure); `noResponse` is a model artifact marking exhaustion of a
finite server trace (the Go code would instead block on the network). -/
inductive goError where
  | urlParseErr
  | atoiErr
  | apiErr (msg : String)
  | noResponse
deriving Repr, DecidableEq

/-! Link-header regular expression.

Go (`api.go`) compiles the pattern  <([^>]+)>; rel="([^"]+)  and uses
`FindAllStringSubmatch(l, -1)`: leftmost, non-overlapping matches; each
match yields the two capture groups (URL text, relation name). -/

/-- Strip a literal character sequence, returning the remainder on success. -/
def stripLit : List Char → List Char → Option (List Char)
  | [], rest => some rest
  | _ :: _, [] => none
  | p :: ps, c :: cs => if c = p then stripLit ps cs else none

/-- Scanner implementing `FindAllStringSubmatch` for the fixed pattern
`<([^>]+)>; rel="([^"]+)`: at each `<`, take a nonempty run of non-`>`
characters, then the literal `>; rel="`, then a nonempty run of non-`"`
characters; on success resume after the relation name (non-overlapping);
on failure advance one character.

The fuel argument only drives structural recursion: every recursive call
strictly shortens the character list, so fuel `length + 1` never runs out. -/
def scanLinks : Nat → List Char → List (String × String)
  | 0, _ => []
  | _ + 1, [] => []
  | fuel + 1, c :: rest =>
    if c = '<' then
      let url := rest.takeWhile (fun x => x ≠ '>')
      let afterUrl := rest.dropWhile (fun x => x ≠ '>')
      match url, afterUrl with
      | _ :: _, '>' :: r1 =>
        match stripLit ("; rel=".toList ++ ['"']) r1 with
        | some r2 =>
          match r2.takeWhile (fun x => x ≠ '"') with
          | [] => scanLinks fuel rest
          | _ :: _ =>
            (url.asString, (r2.takeWhile (fun x => x ≠ '"')).asString) ::
              scanLinks fuel (r2.dropWhile (fun x => x ≠ '"'))
        | none => scanLinks fuel rest
      | _, _ => scanLinks fuel rest
    else scanLinks fuel rest

/-- Go: `linkRegex.FindAllStringSubmatch(l, -1)`, keeping the two captures. -/
def findLinkMatches (s : String) : List (String × String) :=
  scanLinks (s.data.length + 1) s.data

/-! URL parsing (net/url, the parts `parseLink` uses).

`parseLink` calls `url.Parse(submatch[1])` and then reads
`u.Query().Get("since_id")`, `..Get("max_id")`, `..Get("limit")`.

Model of `url.Parse` validity: the control-character rejection (`net/url:
invalid control character in URL`), which is Parse's first check; the rarer
failure modes (invalid percent-escape in the path or host, invalid port) are
not modelled.  `Query()` discards the error of `ParseQuery`, so malformed
query pairs are silently skipped, never surfaced. -/

/-- Models the validity check of `url.Parse`: no ASCII control character. -/
def urlParseOk (u : String) : Bool :=
  ! u.data.any (fun c => c.toNat < 0x20 || c.toNat == 0x7f)

/-- The `RawQuery` component of a parsed URL: the part after the first `?`,
with the fragment (everything from the first `#`) removed first. -/
def rawQueryOf (u : String) : String :=
  let noFrag := u.data.takeWhile (fun c => c ≠ '#')
  match noFrag.dropWhile (fun c => c ≠ '?') with
  | [] => ""
  | _ :: q => q.asString

/-- Hexadecimal digit value, as in net/url `unhex`. -/
def hexVal (c : Char) : Option Nat :=
  if '0' ≤ c ∧ c ≤ '9' then some (c.toNat - '0'.toNat)
  else if 'a' ≤ c ∧ c ≤ 'f' then some (c.toNat - 'a'.toNat + 10)
  else if 'A' ≤ c ∧ c ≤ 'F' then some (c.toNat - 'A'.toNat + 10)
  else none

/-- net/url `QueryUnescape`: `%XX` decodes to the byte `XX` (modelled as a
character; multi-byte UTF-8 sequences are out of scope here), `+` decodes to a
space, a `%` not followed by two hex digits is an error. -/
def queryUnescape : List Char → Option (List Char)
  | [] => some []
  | '%' :: a :: b :: rest =>
    match hexVal a, hexVal b with
    | some x, some y => (queryUnescape rest).map (fun t => Char.ofNat (16 * x + y) :: t)
    | _, _ => none
  | '%' :: _ => none
  | '+' :: rest => (queryUnescape rest).map (fun t => ' ' :: t)
  | c :: rest => (queryUnescape rest).map (fun t => c :: t)

/-- Split a character list on a separator character, keeping empty segments
(the semantics of Go's cut-at-`&` loop in `parseQuery`). -/
def splitOnChar (sep : Char) : List Char → List (List Char)
  | [] => [[]]
  | c :: rest =>
    if c = sep then [] :: splitOnChar sep rest
    else
      match splitOnChar sep rest with
      | s :: ss => (c :: s) :: ss
      | [] => [[c]]

/-- net/url `parseQuery`, as consumed through `Query()` (errors dropped):
split the raw query on `&`; skip empty segments, segments containing `;`
(an error in Go, but `Query()` discards it), and segments whose key or value
fails unescaping; split each segment at the first `=`. -/
def parseQueryPairs (rq : String) : List (String × String) :=
  (splitOnChar '&' rq.data).filterMap (fun seg =>
    if seg = [] then none
    else if seg.contains ';' then none
    else
      let k := seg.takeWhile (fun c => c ≠ '=')
      let v := (seg.dropWhile (fun c => c ≠ '=')).drop 1
      match queryUnescape k, queryUnescape v with
      | some k, some v => some (k.asString, v.asString)
      | _, _ => none)

/-- `u.Query().Get(key)`: the first value bound to `key`, or `""`. -/
def queryGet (u : String) (key : String) : String :=
  match (parseQueryPairs (rawQueryOf u)).find? (fun p => p.1 = key) with
  | some p => p.2
  | none => ""

/-! strconv.Atoi -/

/-- Decimal digit run value; `none` when empty or a non-digit occurs. -/
def digitsVal : List Char → Option Nat
  | [] => none
  | [c] => if '0' ≤ c ∧ c ≤ '9' then some (c.toNat - '0'.toNat) else none
  | c :: cs =>
    if '0' ≤ c ∧ c ≤ '9' then
      (digitsVal cs).map (fun n => (c.toNat - '0'.toNat) * 10 ^ cs.length + n)
    else none

/-- strconv.Atoi on a 64-bit platform: optional sign, a nonempty digit run,
failing on any other character and on values outside the int64 range. -/
def goAtoi (s : String) : Option Int :=
  let core (cs : List Char) (neg : Bool) : Option Int :=
    match digitsVal cs with
    | none => none
    | some n =>
      let v : Int := if neg then -(n : Int) else (n : Int)
      if v < -(2 ^ 63) ∨ 2 ^ 63 - 1 < v then none else some v
  match s.data with
  | [] => none
  | '+' :: rest => core rest false
  | '-' :: rest => core rest true
  | cs => core cs false

/-! The link-header parser itself (`parseLink`, api.go lines 29-82). -/

/-- The URL-side part of `parseLink`'s loop body (api.go lines 42-70): parse
the URL (an error aborts); read the `since_id`, `max_id` and `limit` query
parameters; yield no cursor when both bounds are empty; otherwise build the
`LimitParams`, where an `Atoi` failure on a nonempty `limit` aborts. -/
def cursorOfURL (u : String) : Except goError (Option LimitParams) :=
  if urlParseOk u then
    let since := queryGet u "since_id"
    let max := queryGet u "max_id"
    let lim := queryGet u "limit"
    if since = "" ∧ max = "" then .ok none
    else
      let lp : LimitParams := {}
      let lp := if since ≠ "" then { lp with sinceID := since } else lp
      let lp := if max ≠ "" then { lp with maxID := max } else lp
      match (if lim ≠ "" then (goAtoi lim).map some else some none) with
      | none => .error .atoiErr
      | some olim =>
        .ok (some (match olim with
          | some n => { lp with limit := n }
          | none => lp))
  else .error .urlParseErr

/-- The body of `parseLink`'s inner loop for one regex match
`(URL text, relation name)`, threading the `apiLinks` under construction
(api.go lines 40-77): the URL-side part above, then the `switch` on the
relation name, where `"prev"` and `"next"` assign the cursor and any other
relation leaves the links untouched. -/
def processEntry (al : apiLinks) (entry : String × String) :
    Except goError apiLinks :=
  match cursorOfURL entry.1 with
  | .error e => .error e
  | .ok none => .ok al
  | .ok (some lp) =>
    match entry.2 with
    | "prev" => .ok { al with prev := some lp }
    | "next" => .ok { al with next := some lp }
    | _ => .ok al

/-- `parseLink`'s double loop over the raw header values and the regex matches
of each value, with its early `return al, err`: sequential processing of the
concatenated match list, stopping at the first error and returning the
partially filled `apiLinks` beside it. -/
def parseLinkLoop (al : apiLinks) :
    List (String × String) → apiLinks × Option goError
  | [] => (al, none)
  | e :: rest =>
    match processEntry al e with
    | .error err => (al, some err)
    | .ok al' => parseLinkLoop al' rest

/-- `parseLink(links []string) (*apiLinks, error)` (api.go lines 29-82):
`(nil, nil)` on an empty header list, otherwise the loop result.  (The
`len(submatch) != 3` guard is vacuous: every match of the pattern has exactly
two capture groups.) -/
def parseLink (links : List String) : Option apiLinks × Option goError :=
  match links with
  | [] => (none, none)
  | _ =>
    let (al, e) := parseLinkLoop {} (links.flatMap findLinkMatches)
    (some al, e)

example :
    findLinkMatches "<https://x/?max_id=50&limit=20>; rel=\"next\"" =
      [("https://x/?max_id=50&limit=20", "next")] := by decide

example :
    parseLink ["<https://x/?max_id=50&limit=20>; rel=\"next\""] =
      (some { next := some { limit := 20, maxID := "50" }, prev := none },
       none) := by decide

/-! Cursor serialization in `apiCall` (api.go lines 210-228).

Go:
  if limitOptions != nil {
      if params == nil { params = make(apiCallParams) }
      if limitOptions.Limit > 0  { params["limit"]    = strconv.Itoa(limitOptions.Limit) }
      if limitOptions.SinceID != "" { params["since_id"] = limitOptions.SinceID }
      if limitOptions.MaxID != ""   { params["max_id"]   = limitOptions.MaxID }
  }
`restAPI` then copies every entry of the map into the request's query string
(the bracket-index rewriting only touches keys of the form `[N]key`). -/

/-- `apiCallParams` is a Go `map[string]string`; modelled as an association
list where insertion replaces an existing binding. -/
abbrev apiCallParams := List (String × String)

def insertParam (ps : apiCallParams) (k v : String) : apiCallParams :=
  if ps.any (fun p => p.1 = k) then
    ps.map (fun p => if p.1 = k then (k, v) else p)
  else ps ++ [(k, v)]

def lookupParam (ps : apiCallParams) (k : String) : Option String :=
  (ps.find? (fun p => p.1 = k)).map (fun p => p.2)

/-- The `limitOptions` block of `apiCall`: serialize the cursor's limit,
since and max bounds into the query parameters, omitting unset fields. -/
def setLimitParams (params : apiCallParams) (limitOptions : Option LimitParams) :
    apiCallParams :=
  match limitOptions with
  | none => params
  | some lo =>
    let p := params
    let p := if lo.limit > 0 then insertParam p "limit" (toString lo.limit) else p
    let p := if lo.sinceID ≠ "" then insertParam p "since_id" lo.sinceID else p
    let p := if lo.maxID ≠ "" then insertParam p "max_id" lo.maxID else p
    p

/-! The paged fetch loop (`getMultipleAccounts`, account.go lines 102-121).

Go:
  func (mc *Client) getMultipleAccounts(endPoint string, params apiCallParams,
          lopt *LimitParams) ([]Account, error) {
      var accounts []Account
      var links apiLinks
      if err := mc.apiCall("v1/"+endPoint, rest.Get, params, lopt, &links, &accounts); err != nil {
          return nil, err
      }
      if lopt != nil { // Fetch more pages to reach our limit
          var accountSlice []Account
          for (lopt.All || lopt.Limit > len(accounts)) && links.next != nil {
              newlopt := links.next
              links = apiLinks{}
              if err := mc.apiCall("v1/"+endPoint, rest.Get, params, newlopt, &links, &accountSlice); err != nil {
                  return nil, err
              }
              accounts = append(accounts, accountSlice...)
              accountSlice = accountSlice[:0] // Clear struct
          }
      }
      return accounts, nil
  }

The Resource Client (`apiCall`'s network and JSON layer) is external to the
loop; it is modelled as a finite trace of per-request results consumed in
order.  Each result is either the decoded page (items plus the `apiLinks`
parsed from the response's Link headers) or the error `apiCall` returned
(transport failure, link-header parse failure, or body decode failure). -/

/-- Account entities are opaque to the pagination loop. -/
abbrev Account := Nat

/-- One `apiCall` outcome: the decoded page and parsed links, or an error. -/
abbrev pageResult := Except goError (List Account × apiLinks)

/-- The `for` loop condition: `(lopt.All || lopt.Limit > len(accounts)) &&
links.next != nil`. -/
def continueCond (lopt : LimitParams) (accounts : List Account)
    (links : apiLinks) : Bool :=
  (lopt.all || decide ((accounts.length : Int) < lopt.limit)) && links.next.isSome

/-- The continuation `for` loop of `getMultipleAccounts`, one trace element
per `apiCall`.  The result mirrors Go's `([]Account, error)` pair — in
particular every error branch is `return nil, err`, modelled as
`([], some e)`, so accumulated pages are discarded on error.  Also returns
the total number of requests issued (the first-page request included,
threaded through `n`).  An exhausted trace while the loop still wants a page
yields the `noResponse` artifact (the Go code would block on the network
instead). -/
def fetchPages (lopt : LimitParams) :
    List pageResult → List Account → apiLinks → Nat →
      (List Account × Option goError) × Nat
  | [], accounts, links, n =>
    if continueCond lopt accounts links then (([], some .noResponse), n)
    else ((accounts, none), n)
  | r :: rest, accounts, links, n =>
    if continueCond lopt accounts links then
      match r with
      | .error e => (([], some e), n + 1)
      | .ok (accountSlice, links') =>
        fetchPages lopt rest (accounts ++ accountSlice) links' (n + 1)
    else ((accounts, none), n)

/-- `getMultipleAccounts` over a server trace: first `apiCall`, then, when
`lopt` is non-nil, the continuation loop.  Also returns the number of
requests issued. -/
def getMultipleAccounts (resps : List pageResult) (lopt : Option LimitParams) :
    (List Account × Option goError) × Nat :=
  match resps with
  | [] => (([], some .noResponse), 0)
  | r :: rest =>
    match r with
    | .error e => (([], some e), 1)
    | .ok (accounts, links) =>
      match lopt with
      | none => ((accounts, none), 1)
      | some lo => fetchPages lo rest accounts links 1

/-- The caller-side trim, `cmd/accounts.go` lines 376-380:
  if opt.limit > 0 && len(accountList) > int(opt.limit) {
      accountList = accountList[:opt.limit]
  } -/
def callerTrim (limit : Int) (accountList : List Account) : List Account :=
  if limit > 0 ∧ (accountList.length : Int) > limit then
    accountList.take limit.toNat
  else accountList

/-! The streaming read loop (`readStream`, madon v3 streaming.go lines 78-157).

`c.ReadJSON(&msg)` and the payload decodes (`json.Unmarshal` into `Status` or
`Notification`) are I/O external to the loop; each inbound frame is modelled
as either a ReadJSON failure (flagged clean for a `close 1000 (normal)`
error) or a decoded message whose payload carries an abstract decodability
flag. -/

inductive StreamPayload where
  /-- `msg.Payload` is not a string (the type assertion fails). -/
  | nonString
  /-- a string payload; `decodes` models whether `json.Unmarshal` into the
  expected entity (`Status` for update, `Notification` for notification)
  succeeds.  The `delete` branch uses the string itself, ignoring the flag. -/
  | str (s : String) (decodes : Bool)
deriving Repr, DecidableEq

inductive StreamFrame where
  /-- a frame `ReadJSON` decoded into `msg`. -/
  | msg (event : String) (payload : StreamPayload)
  /-- `ReadJSON` failed; `closeNormal` is true when the error text contains
  `close 1000 (normal)`. -/
  | readErr (closeNormal : Bool)
deriving Repr, DecidableEq

/-- What `readStream` pushes onto the events channel: an error event
(`StreamEvent` with `Event = "error"` and an `Error` cause) or a data event
(`StreamEvent` with the frame's event name and the decoded payload). -/
inductive streamEventOut where
  | errorEv
  | dataEv (event : String) (payload : String)
deriving Repr, DecidableEq

/-- The `for` loop of `readStream`: a normal close breaks silently; any other
read error emits one error event and breaks; an inbound message emits either
its data event, or one error event when the payload is not a string, when an
update/notification payload fails to decode, or when the event name is
unhandled — and in every `continue` case keeps reading. -/
def readStream : List StreamFrame → List streamEventOut
  | [] => []
  | .readErr true :: _ => []
  | .readErr false :: _ => [.errorEv]
  | .msg ev p :: rest =>
    match ev, p with
    | "update", .nonString => .errorEv :: readStream rest
    | "update", .str s d =>
      if d then .dataEv "update" s :: readStream rest
      else .errorEv :: readStream rest
    | "notification", .nonString => .errorEv :: readStream rest
    | "notification", .str s d =>
      if d then .dataEv "notification" s :: readStream rest
      else .errorEv :: readStream rest
    | "delete", .nonString => .errorEv :: readStream rest
    | "delete", .str s _ => .dataEv "delete" s :: readStream rest
    | _, _ => .errorEv :: readStream rest

/-! Stream command argument validation (`streamRunE`, cmd/stream.go
lines 58-96) and its fan-out cap. -/

/-- cmd/stream.go line 26: `const maximumHashtagStreamWS = 4`. -/
def maximumHashtagStreamWS : Nat := 4

inductive streamSetupResult where
  /-- validation passed: the stream name and the hashtag list (empty unless
  the name is "hashtag"). -/
  | ok (streamName : String) (hashTagList : List String)
  /-- an `errors.New`/`errors.Errorf` return. -/
  | err (msg : String)
  /-- the Go loop indexes `h[0]` before its (dead) emptiness check, so an
  empty element in the split list is a runtime panic, not an error return. -/
  | panicked
deriving Repr, DecidableEq

/-- The per-element hashtag loop: strip one leading `:` or `#`; an empty
element panics on `h[0]`. -/
def stripTags : List (List Char) → Option (List (List Char))
  | [] => some []
  | h :: rest =>
    match h with
    | [] => none
    | c :: cs =>
      let h' := if c = ':' ∨ c = '#' then cs else c :: cs
      (stripTags rest).map (fun ts => h' :: ts)

/-- The argument-validation phase of `streamRunE` (everything before
`madonInit` and the first `StreamListener` call). -/
def streamRunSetup (args : List String) : streamSetupResult :=
  match args with
  | [] => .ok "user" []
  | _ :: _ :: _ => .err "too many parameters"
  | [arg] =>
    if arg = "" ∨ arg = "user" then .ok "user" []
    else if arg = "public" then .ok "public" []
    else if arg = "local" then .ok "public:local" []
    else
      match arg.toList with
      | [] => .ok "user" []
      | c :: rest =>
        if c ≠ ':' ∧ c ≠ '#' then .err "invalid argument"
        else if rest = [] then .err "empty hashtag"
        else
          match stripTags (splitOnChar ',' rest) with
          | none => .panicked
          | some tags =>
            if maximumHashtagStreamWS < tags.length then
              .err "too many hashtags"
            else .ok "hashtag" (tags.map List.asString)

/-- Number of websocket connection attempts (`StreamListener` calls)
`streamRunE` makes when every attempted connection succeeds: none when
validation rejects the arguments, one for the single-stream path, one per
hashtag otherwise (cmd/stream.go lines 107-142). -/
def streamConnAttempts (args : List String) : Nat :=
  match streamRunSetup args with
  | .ok streamName tags =>
    if streamName ≠ "hashtag" ∨ tags.length ≤ 1 then 1 else tags.length
  | _ => 0

/-- A successful page: its items plus a parsed next cursor (or none). -/
def mkPage (items : List Account) (nxt : Option LimitParams) : pageResult :=
  .ok (items, { next := nxt, prev := none })

/-! The multiplexed stream fan-in of `streamRunE` (cmd/stream.go
lines 107-195), as a small-step transition system.

One hashtag connection `i` owns a `tagDoneCh[i]` channel that `readStream`
closes when its read loop ends (remote close, read error, or the broadcast
`stop`).  The forwarding goroutine for `i` then sends one `true` on the
shared unbuffered `done` channel and returns; the main `LISTEN` loop breaks
on the first value received from `done` (and only then runs its teardown
`close(stop)`).  A send on `done` can only complete while the main loop is
still selecting on it, so a delivery is modelled as one atomic step that
also ends the loop; forwarding goroutines of other finished connections
block forever on their send.

State: `connClosed i` — connection `i`'s read loop has terminated and
`tagDoneCh[i]` is closed; `fwdDone i` — the forwarding goroutine for `i`
has completed its `done <- true`; `listening` — the main loop is still in
`LISTEN`. -/
structure MuxState (n : Nat) where
  connClosed : Fin n → Bool
  fwdDone : Fin n → Bool
  listening : Bool

def MuxState.init (n : Nat) : MuxState n :=
  { connClosed := fun _ => false, fwdDone := fun _ => false, listening := true }

inductive MuxStep (n : Nat) : MuxState n → MuxState n → Prop where
  /-- connection `i`'s read loop terminates: `close(tagDoneCh[i])`. -/
  | connDone (i : Fin n) (s : MuxState n) (h : s.connClosed i = false) :
      MuxStep n s { s with connClosed := Function.update s.connClosed i true }
  /-- forwarding goroutine `i` sees its `tagDoneCh` closed and its
  `done <- true` rendezvouses with the main loop, which breaks `LISTEN`. -/
  | deliverDone (i : Fin n) (s : MuxState n) (hc : s.connClosed i = true)
      (hf : s.fwdDone i = false) (hl : s.listening = true) :
      MuxStep n s { s with fwdDone := Function.update s.fwdDone i true,
                           listening := false }

/-- States reachable from the launch of the multiplexed listeners. -/
def MuxReachable (n : Nat) (s : MuxState n) : Prop :=
  Relation.ReflTransGen (MuxStep n) (MuxState.init n) s

/-- The condition under which `parseLink`'s loop body returns an error on a
match with URL text `u`: the URL fails to parse, or the entry carries at
least one bound and its nonempty `limit` fails `Atoi`. -/
def entryErrs (u : String) : Bool :=
  !urlParseOk u ||
    (!(queryGet u "since_id" = "" && queryGet u "max_id" = "") &&
      (!(queryGet u "limit" = "") && (goAtoi (queryGet u "limit")).isNone))

/-- Frames whose event name is unrecognized or whose payload cannot be
decoded: a non-string payload, an update/notification payload that fails
JSON decoding, or an unhandled event name.  (A `delete` only needs a string
payload, so a string `delete` payload always decodes.) -/
def unparseableFrame : StreamFrame → Prop
  | .msg ev p =>
      (ev ≠ "update" ∧ ev ≠ "notification" ∧ ev ≠ "delete") ∨
      p = .nonString ∨ (∃ s, p = .str s false ∧ ev ≠ "delete")
  | .readErr _ => False

/-! Theorems.  Helper lemmas come first, then one theorem per claim (with its
witness or counterexample). -/


theorem find?_map_replace (ps : apiCallParams) (k v k' : String) (h : k' ≠ k) :
    (ps.map (fun q => if q.1 = k then (k, v) else q)).find?
        (fun q => q.1 = k') =
      ps.find? (fun q => q.1 = k') := by
  induction ps with
  | nil => rfl
  | cons p ps ih =>
    by_cases hp : p.1 = k
    · simp only [List.map_cons, if_pos hp, List.find?]
      have h1 : ((k, v).1 = k') = False := by
        simp only [eq_iff_iff, iff_false]; exact fun hh => h hh.symm
      have h2 : (p.1 = k') = False := by
        rw [hp]
        simp only [eq_iff_iff, iff_false]; exact fun hh => h hh.symm
      simp only [h1, h2, decide_False]
      exact ih
    · simp only [List.map_cons, if_neg hp, List.find?]
      by_cases hk' : p.1 = k'
      · simp [hk']
      · simp only [hk', decide_False]
        exact ih

theorem find?_map_hit (ps : apiCallParams) (k v : String)
    (h : ps.any (fun q => q.1 = k) = true) :
    (ps.map (fun q => if q.1 = k then (k, v) else q)).find?
        (fun q => q.1 = k) = some (k, v) := by
  induction ps with
  | nil => simp at h
  | cons p ps ih =>
    by_cases hp : p.1 = k
    · simp [List.map_cons, if_pos hp, List.find?]
    · simp only [List.any_cons, Bool.or_eq_true, decide_eq_true_eq] at h
      rcases h with h | h
      · exact absurd h hp
      · rw [List.map_cons, if_neg hp]
        simp only [List.find?, decide_eq_false hp]
        exact ih h

theorem lookupParam_insert_same (ps : apiCallParams) (k v : String) :
    lookupParam (insertParam ps k v) k = some v := by
  unfold insertParam lookupParam
  by_cases hany : ps.any (fun q => q.1 = k) = true
  · rw [if_pos hany, find?_map_hit ps k v hany]
    rfl
  · rw [if_neg hany, List.find?_append]
    have hnone : ps.find? (fun q => decide (q.1 = k)) = none := by
      rw [List.find?_eq_none]
      intro q hq
      simp only [Bool.not_eq_true, decide_eq_false_iff_not]
      intro hqk
      exact hany (List.any_eq_true.mpr ⟨q, hq, by simp [hqk]⟩)
    rw [hnone]
    simp [List.find?]

theorem lookupParam_insert_other (ps : apiCallParams) (k v k' : String)
    (h : k' ≠ k) :
    lookupParam (insertParam ps k v) k' = lookupParam ps k' := by
  unfold insertParam lookupParam
  by_cases hany : ps.any (fun q => q.1 = k) = true
  · rw [if_pos hany, find?_map_replace ps k v k' h]
  · rw [if_neg hany, List.find?_append]
    have hone : List.find? (fun q => decide (q.1 = k')) [(k, v)] = none := by
      simp [List.find?, Ne.symm h]
    rw [hone]
    cases ps.find? (fun q => decide (q.1 = k')) <;> rfl

theorem lookup_setLimitParams_since (params : apiCallParams)
    (lo : LimitParams) (h2 : lookupParam params "since_id" = none) :
    lookupParam (setLimitParams params (some lo)) "since_id" =
      (if lo.sinceID ≠ "" then some lo.sinceID else none) := by
  have dms : ("since_id" : String) ≠ "max_id" := by decide
  have dls : ("since_id" : String) ≠ "limit" := by decide
  simp only [setLimitParams]
  by_cases hm : lo.maxID ≠ ""
  · rw [if_pos hm, lookupParam_insert_other _ _ _ _ dms]
    by_cases hs : lo.sinceID ≠ ""
    · rw [if_pos hs, if_pos hs, lookupParam_insert_same]
    · rw [if_neg hs, if_neg hs]
      by_cases hl : lo.limit > 0
      · rw [if_pos hl, lookupParam_insert_other _ _ _ _ dls, h2]
      · rw [if_neg hl, h2]
  · rw [if_neg hm]
    by_cases hs : lo.sinceID ≠ ""
    · rw [if_pos hs, if_pos hs, lookupParam_insert_same]
    · rw [if_neg hs, if_neg hs]
      by_cases hl : lo.limit > 0
      · rw [if_pos hl, lookupParam_insert_other _ _ _ _ dls, h2]
      · rw [if_neg hl, h2]

theorem lookup_setLimitParams_max (params : apiCallParams)
    (lo : LimitParams) (h3 : lookupParam params "max_id" = none) :
    lookupParam (setLimitParams params (some lo)) "max_id" =
      (if lo.maxID ≠ "" then some lo.maxID else none) := by
  have dsm : ("max_id" : String) ≠ "since_id" := by decide
  have dlm : ("max_id" : String) ≠ "limit" := by decide
  simp only [setLimitParams]
  by_cases hm : lo.maxID ≠ ""
  · rw [if_pos hm, if_pos hm, lookupParam_insert_same]
  · rw [if_neg hm, if_neg hm]
    by_cases hs : lo.sinceID ≠ ""
    · rw [if_pos hs, lookupParam_insert_other _ _ _ _ dsm]
      by_cases hl : lo.limit > 0
      · rw [if_pos hl, lookupParam_insert_other _ _ _ _ dlm, h3]
      · rw [if_neg hl, h3]
    · rw [if_neg hs]
      by_cases hl : lo.limit > 0
      · rw [if_pos hl, lookupParam_insert_other _ _ _ _ dlm, h3]
      · rw [if_neg hl, h3]

theorem lookup_setLimitParams_limit (params : apiCallParams)
    (lo : LimitParams) (h1 : lookupParam params "limit" = none) :
    lookupParam (setLimitParams params (some lo)) "limit" =
      (if lo.limit > 0 then some (toString lo.limit) else none) := by
  have dsl : ("limit" : String) ≠ "since_id" := by decide
  have dml : ("limit" : String) ≠ "max_id" := by decide
  simp only [setLimitParams]
  by_cases hm : lo.maxID ≠ ""
  · rw [if_pos hm, lookupParam_insert_other _ _ _ _ dml]
    by_cases hs : lo.sinceID ≠ ""
    · rw [if_pos hs, lookupParam_insert_other _ _ _ _ dsl]
      by_cases hl : lo.limit > 0
      · rw [if_pos hl, if_pos hl, lookupParam_insert_same]
      · rw [if_neg hl, if_neg hl, h1]
    · rw [if_neg hs]
      by_cases hl : lo.limit > 0
      · rw [if_pos hl, if_pos hl, lookupParam_insert_same]
      · rw [if_neg hl, if_neg hl, h1]
  · rw [if_neg hm]
    by_cases hs : lo.sinceID ≠ ""
    · rw [if_pos hs, lookupParam_insert_other _ _ _ _ dsl]
      by_cases hl : lo.limit > 0
      · rw [if_pos hl, if_pos hl, lookupParam_insert_same]
      · rw [if_neg hl, if_neg hl, h1]
    · rw [if_neg hs]
      by_cases hl : lo.limit > 0
      · rw [if_pos hl, if_pos hl, lookupParam_insert_same]
      · rw [if_neg hl, if_neg hl, h1]

/-- C4, counterexample to the claim as stated: the cursor with `Limit = -1`
has a non-zero limit field, yet `apiCall` serializes no `limit` parameter —
the guard is `limitOptions.Limit > 0`, not `!= 0`. -/
theorem C4_limit_nonzero_counterexample :
    (({ limit := -1 : LimitParams }).limit ≠ 0) ∧
    lookupParam (setLimitParams [] (some { limit := -1 })) "limit" = none := by
  constructor
  · decide
  · rfl

/-- C4 (amended): starting from fixed parameters that do not already bind
`limit`, `since_id` or `max_id`, a cursor with both bounds unset contributes
no `since_id` and no `max_id` parameter at all; `since_id` appears iff the
since bound is non-empty (with its value), `max_id` iff the max bound is
non-empty, and `limit` iff the limit is strictly positive (not merely
non-zero). -/
theorem setLimitParams_presence (params : apiCallParams) (lo : LimitParams)
    (h1 : lookupParam params "limit" = none)
    (h2 : lookupParam params "since_id" = none)
    (h3 : lookupParam params "max_id" = none) :
    (lo.sinceID = "" ∧ lo.maxID = "" →
      lookupParam (setLimitParams params (some lo)) "since_id" = none ∧
      lookupParam (setLimitParams params (some lo)) "max_id" = none) ∧
    lookupParam (setLimitParams params (some lo)) "since_id" =
      (if lo.sinceID ≠ "" then some lo.sinceID else none) ∧
    lookupParam (setLimitParams params (some lo)) "max_id" =
      (if lo.maxID ≠ "" then some lo.maxID else none) ∧
    lookupParam (setLimitParams params (some lo)) "limit" =
      (if lo.limit > 0 then some (toString lo.limit) else none) := by
  refine ⟨?_, lookup_setLimitParams_since params lo h2,
    lookup_setLimitParams_max params lo h3,
    lookup_setLimitParams_limit params lo h1⟩
  rintro ⟨hs, hm⟩
  constructor
  · rw [lookup_setLimitParams_since params lo h2, if_neg (by simp [hs])]
  · rw [lookup_setLimitParams_max params lo h3, if_neg (by simp [hm])]

theorem setLimitParams_presence_witness :
    lookupParam (setLimitParams [] (some { limit := 20, maxID := "50" }))
        "max_id" = some "50" ∧
    lookupParam (setLimitParams [] (some { limit := 20, maxID := "50" }))
        "since_id" = none := by
  have h := setLimitParams_presence [] { limit := 20, maxID := "50" }
    rfl rfl rfl
  refine ⟨?_, ?_⟩
  · rw [h.2.2.1]
    decide
  · rw [h.2.1]
    decide

theorem fetchPages_stop (lo : LimitParams) (resps : List pageResult)
    (acc : List Account) (links : apiLinks) (n : Nat)
    (hc : continueCond lo acc links = false) :
    fetchPages lo resps acc links n = ((acc, none), n) := by
  cases resps <;> simp [fetchPages, hc]

theorem fetchPages_cons_page (lo : LimitParams) (items : List Account)
    (nxt : Option LimitParams) (rest : List pageResult) (acc : List Account)
    (links : apiLinks) (n : Nat) (hc : continueCond lo acc links = true) :
    fetchPages lo (mkPage items nxt :: rest) acc links n =
      fetchPages lo rest (acc ++ items) { next := nxt, prev := none }
        (n + 1) := by
  simp [fetchPages, mkPage, hc]

theorem fetchPages_cons_err (lo : LimitParams) (e : goError)
    (rest : List pageResult) (acc : List Account) (links : apiLinks) (n : Nat)
    (hc : continueCond lo acc links = true) :
    fetchPages lo (.error e :: rest) acc links n = (([], some e), n + 1) := by
  simp [fetchPages, hc]

theorem continueCond_all (lo : LimitParams) (hall : lo.all = true)
    (acc : List Account) (lp : LimitParams) :
    continueCond lo acc { next := some lp, prev := none } = true := by
  simp [continueCond, hall]

theorem fetchPages_all_pages (lo : LimitParams) (hall : lo.all = true)
    (pre : List (List Account × LimitParams)) :
    ∀ (last acc : List Account) (lp : LimitParams) (n : Nat),
    fetchPages lo
        (pre.map (fun pc => mkPage pc.1 (some pc.2)) ++ [mkPage last none])
        acc { next := some lp, prev := none } n =
      ((acc ++ ((pre.map Prod.fst).flatten ++ last), none),
        n + pre.length + 1) := by
  induction pre with
  | nil =>
    intro last acc lp n
    rw [List.map_nil, List.nil_append,
      fetchPages_cons_page lo last none [] acc _ n
        (continueCond_all lo hall acc lp),
      fetchPages_stop lo [] (acc ++ last) _ (n + 1) (by simp [continueCond])]
    simp
  | cons pc pre ih =>
    intro last acc lp n
    rw [List.map_cons, List.cons_append,
      fetchPages_cons_page lo pc.1 (some pc.2) _ acc _ n
        (continueCond_all lo hall acc lp),
      ih last (acc ++ pc.1) pc.2 (n + 1)]
    simp only [Prod.mk.injEq, List.map_cons, List.flatten_cons,
      List.append_assoc, List.length_cons, true_and, and_true, eq_self_iff_true]
    omega

/-- C3: for a server trace of `N = pre.length + 1` pages where every page but
the last carries a next cursor and the last carries none, `fetchAll = true`
returns the concatenation of all pages' items in arrival order, no error,
after exactly `N` requests. -/
theorem getMultipleAccounts_fetchAll (lo : LimitParams) (hall : lo.all = true)
    (pre : List (List Account × LimitParams)) (last : List Account) :
    getMultipleAccounts
        (pre.map (fun pc => mkPage pc.1 (some pc.2)) ++ [mkPage last none])
        (some lo) =
      (((pre.map Prod.fst).flatten ++ last, none), pre.length + 1) := by
  cases pre with
  | nil =>
    rw [List.map_nil, List.nil_append]
    show fetchPages lo [] last { next := none, prev := none } 1 = _
    rw [fetchPages_stop lo [] last _ 1 (by simp [continueCond])]
    simp
  | cons pc pre =>
    rw [List.map_cons, List.cons_append]
    show fetchPages lo _ pc.1 { next := some pc.2, prev := none } 1 = _
    rw [fetchPages_all_pages lo hall pre last pc.1 pc.2 1]
    simp only [Prod.mk.injEq, List.map_cons, List.flatten_cons,
      List.append_assoc, List.length_cons, true_and, and_true, eq_self_iff_true]
    omega

theorem getMultipleAccounts_fetchAll_witness :
    getMultipleAccounts
        [mkPage [1, 2] (some {}), mkPage [3] none]
        (some { all := true }) = (([1, 2, 3], none), 2) := by
  have h := getMultipleAccounts_fetchAll { all := true } rfl
    [([1, 2], {})] [3]
  simpa using h

/-- C1, counterexample to the claim as stated: page 1 returns items `[1, 2]`
with a next cursor, the continuation request for page 2 fails; the code's
`return nil, err` yields an empty item list beside the error — not the
accumulated `[1, 2]`. -/
theorem C1_partial_results_counterexample :
    getMultipleAccounts [mkPage [1, 2] (some {}), .error (.apiErr "boom")]
        (some { all := true }) = (([], some (.apiErr "boom")), 2) ∧
    ([1, 2] : List Account) ≠ [] := by
  constructor
  · rfl
  · decide

theorem fetchPages_fail (lo : LimitParams) (hall : lo.all = true)
    (pre : List (List Account × LimitParams)) (e : goError) :
    ∀ (acc : List Account) (lp : LimitParams) (n : Nat),
    fetchPages lo (pre.map (fun pc => mkPage pc.1 (some pc.2)) ++ [.error e])
        acc { next := some lp, prev := none } n =
      (([], some e), n + pre.length + 1) := by
  induction pre with
  | nil =>
    intro acc lp n
    rw [List.map_nil, List.nil_append,
      fetchPages_cons_err lo e [] acc _ n (continueCond_all lo hall acc lp)]
    simp
  | cons pc pre ih =>
    intro acc lp n
    rw [List.map_cons, List.cons_append,
      fetchPages_cons_page lo pc.1 (some pc.2) _ acc _ n
        (continueCond_all lo hall acc lp),
      ih (acc ++ pc.1) pc.2 (n + 1)]
    simp only [Prod.mk.injEq, List.length_cons, true_and]
    omega

/-- C1 (amended): with `fetchAll = true`, a request or decode failure on page
`k = pre.length + 1` — the first page included — makes `getMultipleAccounts`
return `nil` items together with the non-nil error after `k` requests: the
items accumulated from pages `1..k-1` are discarded, exactly as on a
first-page failure. -/
theorem getMultipleAccounts_failure_discards (lo : LimitParams)
    (hall : lo.all = true) (pre : List (List Account × LimitParams))
    (e : goError) :
    getMultipleAccounts
        (pre.map (fun pc => mkPage pc.1 (some pc.2)) ++ [.error e])
        (some lo) =
      (([], some e), pre.length + 1) := by
  cases pre with
  | nil => rfl
  | cons pc pre =>
    rw [List.map_cons, List.cons_append]
    show fetchPages lo _ pc.1 { next := some pc.2, prev := none } 1 = _
    rw [fetchPages_fail lo hall pre e pc.1 pc.2 1]
    simp only [Prod.mk.injEq, List.length_cons, true_and]
    omega

theorem getMultipleAccounts_failure_discards_witness :
    getMultipleAccounts [mkPage [1, 2] (some {}), .error .noResponse]
        (some { all := true }) = (([], some .noResponse), 2) := by
  have h := getMultipleAccounts_failure_discards { all := true } rfl
    [([1, 2], {})] .noResponse
  simpa using h

/-- C7: with `fetchAll` false and quota `Q = lo.limit`, the loop
(i) stops immediately — issuing no further request and returning the
accumulator untrimmed — as soon as the accumulated length reaches `Q` or the
next cursor is absent; (ii) issues a request exactly when the accumulated
length is still below `Q` and a next cursor exists, so every request issued
is necessary; and (iii) the trim to exactly `Q` items is the caller's
(`cmd/accounts.go`), producing exactly `Q` items when the fetch overshot. -/
theorem fetch_quota_behaviour (lo : LimitParams) (hallf : lo.all = false) :
    (∀ (resps : List pageResult) (acc : List Account) (links : apiLinks)
        (n : Nat), (lo.limit ≤ (acc.length : Int) ∨ links.next = none) →
        fetchPages lo resps acc links n = ((acc, none), n)) ∧
    (∀ (r : pageResult) (rest : List pageResult) (acc : List Account)
        (links : apiLinks) (n : Nat),
        (acc.length : Int) < lo.limit → links.next.isSome = true →
        fetchPages lo (r :: rest) acc links n =
          match r with
          | .error e => (([], some e), n + 1)
          | .ok (accountSlice, links') =>
            fetchPages lo rest (acc ++ accountSlice) links' (n + 1)) ∧
    (∀ (accountList : List Account), 0 < lo.limit →
        lo.limit < (accountList.length : Int) →
        callerTrim lo.limit accountList = accountList.take lo.limit.toNat ∧
        ((callerTrim lo.limit accountList).length : Int) = lo.limit) := by
  refine ⟨?_, ?_, ?_⟩
  · intro resps acc links n h
    have hc : continueCond lo acc links = false := by
      rcases h with h | h
      · simp [continueCond, hallf]
        intro
        omega
      · simp [continueCond, hallf, h]
    exact fetchPages_stop lo resps acc links n hc
  · intro r rest acc links n hlt hnx
    have hc : continueCond lo acc links = true := by
      simp [continueCond, hallf, hnx, hlt]
    cases r with
    | error e => exact fetchPages_cons_err lo e rest acc links n hc
    | ok page =>
      show fetchPages lo (.ok (page.1, page.2) :: rest) acc links n = _
      simp [fetchPages, hc]
  · intro accountList hq hlen
    have hcond : lo.limit > 0 ∧ (accountList.length : Int) > lo.limit :=
      ⟨hq, hlen⟩
    constructor
    · simp [callerTrim, hcond]
    · simp only [callerTrim, hcond, and_self, if_true, List.length_take]
      omega

theorem fetch_quota_behaviour_witness :
    fetchPages { limit := 3 } [] [1, 2, 3] { next := some {}, prev := none }
        2 = (([1, 2, 3], none), 2) ∧
    fetchPages { limit := 3 } [mkPage [4, 5] none] [1, 2]
        { next := some {}, prev := none } 1 =
      fetchPages { limit := 3 } [] [1, 2, 4, 5] { next := none, prev := none }
        2 ∧
    callerTrim 3 [1, 2, 4, 5] = [1, 2, 4] := by
  have h := fetch_quota_behaviour { limit := 3 } rfl
  refine ⟨?_, ?_, ?_⟩
  · exact h.1 [] [1, 2, 3] _ 2 (by decide)
  · have := h.2.1 (mkPage [4, 5] none) [] [1, 2] { next := some {}, prev := none }
      1 (by decide) (by decide)
    simpa [mkPage] using this
  · have := h.2.2 [1, 2, 4, 5] (by decide) (by decide)
    rw [this.1]
    rfl

theorem cursorOfURL_error_char (u : String) :
    (∃ e, cursorOfURL u = .error e) ↔ entryErrs u = true := by
  simp only [cursorOfURL, entryErrs]
  by_cases hu : urlParseOk u = true
  · rw [if_pos hu]
    by_cases hsm : queryGet u "since_id" = "" ∧ queryGet u "max_id" = ""
    · rw [if_pos hsm]
      simp [hu, hsm.1, hsm.2]
    · rw [if_neg hsm]
      by_cases hl : queryGet u "limit" = ""
      · rw [if_neg (by simp [hl])]
        simp [hu, hl]
      · rw [if_pos (by simp [hl])]
        cases hA : goAtoi (queryGet u "limit") with
        | none =>
          simp only [Option.map_none']
          constructor
          · intro
            simp [hu, hl, hA]
            rcases not_and_or.mp hsm with h | h <;> simp [h]
          · intro
            exact ⟨.atoiErr, rfl⟩
        | some n =>
          simp [hu, hA]
  · simp only [Bool.not_eq_true] at hu
    rw [if_neg (by simp [hu])]
    simp [hu]

theorem processEntry_error_of (al : apiLinks) (e : String × String)
    (h : entryErrs e.1 = true) :
    ∃ err, processEntry al e = .error err := by
  obtain ⟨err, herr⟩ := (cursorOfURL_error_char e.1).mpr h
  exact ⟨err, by simp [processEntry, herr]⟩

theorem processEntry_ok_of (al : apiLinks) (e : String × String)
    (h : ¬ entryErrs e.1 = true) :
    ∃ al', processEntry al e = .ok al' := by
  cases hcu : cursorOfURL e.1 with
  | error err => exact absurd ((cursorOfURL_error_char e.1).mp ⟨err, hcu⟩) h
  | ok olp =>
    cases olp with
    | none => exact ⟨al, by simp [processEntry, hcu]⟩
    | some lp =>
      simp only [processEntry, hcu]
      split
      · exact ⟨_, rfl⟩
      · exact ⟨_, rfl⟩
      · exact ⟨_, rfl⟩

theorem parseLinkLoop_error_any (es : List (String × String)) :
    ∀ al, ((parseLinkLoop al es).2).isSome =
      es.any (fun e => entryErrs e.1) := by
  induction es with
  | nil => intro al; rfl
  | cons e rest ih =>
    intro al
    by_cases hbe : entryErrs e.1 = true
    · obtain ⟨err, hpe⟩ := processEntry_error_of al e hbe
      simp [parseLinkLoop, hpe, hbe]
    · obtain ⟨al', hpe⟩ := processEntry_ok_of al e hbe
      simp only [parseLinkLoop, hpe, List.any_cons]
      rw [ih al']
      simp only [Bool.not_eq_true] at hbe
      rw [hbe]
      simp

/-- C6, counterexample to the claim as stated: the single entry
`<https://x/?limit=zz>; rel="next"` is matched and carries a limit value that
fails integer parsing, yet `parseLink` returns no error — the bounds check
(`since == "" && max == ""` → `continue`) runs before the limit is parsed, so
a bounds-free entry with a malformed limit is skipped silently. -/
theorem C6_limit_error_counterexample :
    ((["<https://x/?limit=zz>; rel=\"next\""].flatMap findLinkMatches).any
        (fun e => !urlParseOk e.1 ||
          (!(queryGet e.1 "limit" = "") &&
            (goAtoi (queryGet e.1 "limit")).isNone)) = true) ∧
    (parseLink ["<https://x/?limit=zz>; rel=\"next\""]).2 = none := by
  constructor
  · decide
  · rfl

/-- C6 (amended): `parseLink` returns an error iff some matched entry has a
malformed URL, or carries at least one bound and has a nonempty limit value
that fails integer parsing; an empty link-relation set yields `(nil, nil)`
(no links, no error); and an entry with a well-formed URL lacking both
bounds is skipped without error and leaves the result untouched — even when
its limit value is malformed. -/
theorem parseLink_error_characterization :
    (∀ links : List String,
      ((parseLink links).2).isSome =
        (links.flatMap findLinkMatches).any (fun e => entryErrs e.1)) ∧
    parseLink [] = (none, none) ∧
    (∀ (al : apiLinks) (u rel : String), urlParseOk u = true →
      queryGet u "since_id" = "" → queryGet u "max_id" = "" →
      processEntry al (u, rel) = .ok al) := by
  refine ⟨?_, rfl, ?_⟩
  · intro links
    cases links with
    | nil => rfl
    | cons l ls =>
      have h := parseLinkLoop_error_any ((l :: ls).flatMap findLinkMatches) {}
      simp only [parseLink]
      rcases hX : parseLinkLoop {} ((l :: ls).flatMap findLinkMatches)
        with ⟨al, e⟩
      rw [hX] at h
      simpa using h
  · intro al u rel hu hs hm
    simp [processEntry, cursorOfURL, hu, hs, hm]

theorem parseLink_error_characterization_witness :
    ((parseLink ["<https://x/?since_id=3&limit=zz>; rel=\"next\""]).2).isSome
        = true ∧
    processEntry {} ("https://x/?p=1", "next") = .ok {} := by
  constructor
  · rw [parseLink_error_characterization.1
      ["<https://x/?since_id=3&limit=zz>; rel=\"next\""]]
    decide
  · exact parseLink_error_characterization.2.2 {} "https://x/?p=1" "next"
      (by decide) (by decide) (by decide)

/-- C5: the single entry `<https://x/?max_id=50&limit=20>; rel="next"` parses
to links whose next cursor has max bound `"50"`, page size `20`, and no since
bound, with prev unset and no error; and in general a relation value of
`"next"` populates the `next` cursor and `"prev"` populates the `prev`
cursor from the URL's query parameters. -/
theorem parseLink_scenarioA_and_rel_population :
    parseLink ["<https://x/?max_id=50&limit=20>; rel=\"next\""] =
      (some { next := some { limit := 20, all := false, sinceID := "",
                             maxID := "50" },
              prev := none }, none) ∧
    (∀ (al : apiLinks) (u : String) (lp : LimitParams),
      cursorOfURL u = .ok (some lp) →
      processEntry al (u, "next") = .ok { al with next := some lp }) ∧
    (∀ (al : apiLinks) (u : String) (lp : LimitParams),
      cursorOfURL u = .ok (some lp) →
      processEntry al (u, "prev") = .ok { al with prev := some lp }) := by
  refine ⟨by decide, ?_, ?_⟩
  · intro al u lp h
    simp [processEntry, h]
  · intro al u lp h
    simp [processEntry, h]

theorem parseLink_scenarioA_and_rel_population_witness :
    processEntry {} ("https://x/?max_id=9", "next") =
      .ok { next := some { maxID := "9" }, prev := none } ∧
    processEntry {} ("https://x/?since_id=4", "prev") =
      .ok { next := none, prev := some { sinceID := "4" } } := by
  constructor
  · exact parseLink_scenarioA_and_rel_population.2.1 {} "https://x/?max_id=9"
      { maxID := "9" } rfl
  · exact parseLink_scenarioA_and_rel_population.2.2 {} "https://x/?since_id=4"
      { sinceID := "4" } rfl

/-- C10: when several matched entries share the relation value `"next"` and
each carries at least one bound, the assignment `al.next = lp` makes the
last such entry win: the parsed result's next cursor is the one from the
second entry, with no error and no merging. -/
theorem parseLink_last_next_wins (l1 l2 u1 u2 : String)
    (lp1 lp2 : LimitParams)
    (h1 : findLinkMatches l1 = [(u1, "next")])
    (h2 : findLinkMatches l2 = [(u2, "next")])
    (hc1 : cursorOfURL u1 = .ok (some lp1))
    (hc2 : cursorOfURL u2 = .ok (some lp2)) :
    parseLink [l1, l2] = (some { next := some lp2, prev := none }, none) := by
  simp [parseLink, List.flatMap, h1, h2, parseLinkLoop, processEntry, hc1,
    hc2]

theorem parseLink_last_next_wins_witness :
    parseLink ["<https://x/?max_id=1>; rel=\"next\"",
               "<https://x/?max_id=2&limit=7>; rel=\"next\""] =
      (some { next := some { limit := 7, all := false, sinceID := "",
                             maxID := "2" },
              prev := none }, none) := by
  exact parseLink_last_next_wins _ _ "https://x/?max_id=1"
    "https://x/?max_id=2&limit=7" { maxID := "1" }
    { limit := 7, maxID := "2" } (by decide) (by decide) rfl rfl

/-- C8: a frame whose event name is unrecognized or whose payload cannot be
decoded produces exactly one error event on the channel, and the read loop
continues with the subsequent frames instead of terminating. -/
theorem readStream_bad_frame (f : StreamFrame) (rest : List StreamFrame)
    (h : unparseableFrame f) :
    readStream (f :: rest) = .errorEv :: readStream rest := by
  cases f with
  | readErr b => exact h.elim
  | msg ev p =>
    rcases h with ⟨h1, h2, h3⟩ | hp | ⟨s, hp, hne⟩
    · simp only [readStream]
      split <;> simp_all
    · subst hp
      simp only [readStream]
      split <;> simp_all
    · subst hp
      simp only [readStream]
      split <;> simp_all

theorem readStream_bad_frame_witness :
    readStream [.msg "unknown" (.str "x" true),
                .msg "delete" (.str "1" true)] =
      [.errorEv, .dataEv "delete" "1"] := by
  rw [readStream_bad_frame (.msg "unknown" (.str "x" true))
    [.msg "delete" (.str "1" true)]
    (Or.inl ⟨by decide, by decide, by decide⟩)]
  rfl

theorem stripTags_some_of_nonempty (ls : List (List Char))
    (h : ∀ seg ∈ ls, seg ≠ []) :
    ∃ tags, stripTags ls = some tags ∧ tags.length = ls.length := by
  induction ls with
  | nil => exact ⟨[], rfl, rfl⟩
  | cons hd rest ih =>
    obtain ⟨tags, htags, hlen⟩ := ih (fun seg hs => h seg (List.mem_cons.mpr
      (Or.inr hs)))
    cases hhd : hd with
    | nil => exact absurd hhd (h hd (List.mem_cons.mpr (Or.inl rfl)))
    | cons c cs =>
      refine ⟨(if c = ':' ∨ c = '#' then cs else c :: cs) :: tags, ?_, ?_⟩
      · simp [stripTags, htags]
      · simp [hlen]

/-- C9: a stream command argument naming more hashtag feeds than the fan-out
cap `maximumHashtagStreamWS = 4` is rejected during argument validation —
before `madonInit` and before any `StreamListener` call — so zero websocket
connections are attempted. -/
theorem streamRun_hashtag_cap (arg : String) (rest : List Char)
    (hne : arg ≠ "" ∧ arg ≠ "user" ∧ arg ≠ "public" ∧ arg ≠ "local")
    (hd : arg.toList = ':' :: rest)
    (hrest : rest ≠ [])
    (hsegs : ∀ seg ∈ splitOnChar ',' rest, seg ≠ [])
    (hlen : maximumHashtagStreamWS < (splitOnChar ',' rest).length) :
    streamRunSetup [arg] = .err "too many hashtags" ∧
    streamConnAttempts [arg] = 0 := by
  obtain ⟨tags, htags, htlen⟩ := stripTags_some_of_nonempty _ hsegs
  have hsetup : streamRunSetup [arg] = .err "too many hashtags" := by
    simp only [streamRunSetup]
    rw [if_neg (by simp [hne.1, hne.2.1]), if_neg hne.2.2.1,
      if_neg hne.2.2.2, hd]
    split
    · rename_i heq
      exact absurd heq.symm (by simp)
    · rename_i c rest2 heq
      obtain ⟨hc, hr⟩ := List.cons.injEq .. |>.mp heq.symm
      subst hc
      subst hr
      rw [if_neg (by simp), if_neg hrest, htags]
      split
      · rename_i heq
        exact absurd heq (by simp)
      · rename_i tags2 heq
        obtain rfl : tags = tags2 := Option.some.injEq .. |>.mp heq
        rw [if_pos (by omega)]
  refine ⟨hsetup, ?_⟩
  simp [streamConnAttempts, hsetup]

theorem streamRun_hashtag_cap_witness :
    streamRunSetup [":a,b,c,d,e"] = .err "too many hashtags" ∧
    streamConnAttempts [":a,b,c,d,e"] = 0 := by
  exact streamRun_hashtag_cap ":a,b,c,d,e" "a,b,c,d,e".toList
    ⟨by decide, by decide, by decide, by decide⟩ rfl (by decide) (by decide)
    (by decide)

/-- C2, counterexample to the claim as stated: over 3 feeds, the trace
"connection 0 terminates; its forwarding goroutine delivers `done <- true`;
`LISTEN` breaks" is reachable, and in its final state the overall loop has
exited while connection 1 has not reached a terminal state — teardown is a
return on the first connection's done, not a join over all of them. -/
theorem C2_mux_join_counterexample :
    ¬ (∀ s : MuxState 3, MuxReachable 3 s →
        s.listening = false → ∀ i, s.connClosed i = true) := by
  intro hclaim
  have h1 := MuxStep.connDone 0 (MuxState.init 3) rfl
  have h2 := MuxStep.deliverDone 0
    { MuxState.init 3 with
        connClosed := Function.update (MuxState.init 3).connClosed 0 true }
    (by simp) rfl rfl
  have hreach := Relation.ReflTransGen.head h1
    (Relation.ReflTransGen.single h2)
  have := hclaim _ hreach rfl 1
  simp [MuxState.init, Function.update] at this

/-- C2 (amended): in every reachable state of the multiplexed fan-in, the
`done` delivery that breaks `LISTEN` happens at most once (at most one
forwarding goroutine ever completes its send, and only while the loop was
still listening), and when the loop has exited at least one — but not
necessarily every — connection has reached a terminal state, namely the one
whose forwarding goroutine delivered. -/
theorem mux_first_done_semantics (n : Nat) :
    ∀ s : MuxState n, MuxReachable n s →
      (s.listening = false → ∃ i, s.connClosed i = true) ∧
      (∀ i j, s.fwdDone i = true → s.fwdDone j = true → i = j) ∧
      (∀ i, s.fwdDone i = true →
        s.connClosed i = true ∧ s.listening = false) := by
  intro s hreach
  induction hreach with
  | refl =>
    refine ⟨?_, ?_, ?_⟩
    · intro h
      exact absurd h (by simp [MuxState.init])
    · intro i j hi
      exact absurd hi (by simp [MuxState.init])
    · intro i hi
      exact absurd hi (by simp [MuxState.init])
  | tail hsteps hstep ih =>
    cases hstep with
    | connDone i t h =>
      refine ⟨?_, ?_, ?_⟩
      · intro hl
        obtain ⟨j, hj⟩ := ih.1 hl
        refine ⟨j, ?_⟩
        by_cases hji : j = i <;> simp [Function.update, hji, hj]
      · exact ih.2.1
      · intro k hk
        obtain ⟨hk1, hk2⟩ := ih.2.2 k hk
        refine ⟨?_, hk2⟩
        by_cases hki : k = i <;> simp [Function.update, hki, hk1]
    | deliverDone i t hc hf hl =>
      refine ⟨?_, ?_, ?_⟩
      · intro _
        exact ⟨i, hc⟩
      · intro a1 b1 ha hb
        simp only [Function.update] at ha hb
        by_cases hai : a1 = i
        · by_cases hbi : b1 = i
          · rw [hai, hbi]
          · rw [dif_neg hbi] at hb
            exact absurd (ih.2.2 b1 hb).2 (by rw [hl]; simp)
        · rw [dif_neg hai] at ha
          exact absurd (ih.2.2 a1 ha).2 (by rw [hl]; simp)
      · intro k hk
        simp only [Function.update] at hk
        by_cases hki : k = i
        · subst hki
          exact ⟨hc, rfl⟩
        · rw [dif_neg hki] at hk
          exact absurd (ih.2.2 k hk).2 (by rw [hl]; simp)

theorem mux_first_done_semantics_witness :
    ((MuxState.init 3).listening = false →
      ∃ i, (MuxState.init 3).connClosed i = true) ∧
    (∀ i j : Fin 3, (MuxState.init 3).fwdDone i = true →
      (MuxState.init 3).fwdDone j = true → i = j) ∧
    (∀ i : Fin 3, (MuxState.init 3).fwdDone i = true →
      (MuxState.init 3).connClosed i = true ∧
      (MuxState.init 3).listening = false) :=
  mux_first_done_semantics 3 (MuxState.init 3) Relation.ReflTransGen.refl
